import Mathlib

/-!
Verification of the quantum-safe Algorand account derivation and transaction-group
construction of the falcon-signatures repository.

The development shallowly embeds the Go sources:
* `algorand/address.go` — `patchPrecompiledPQlogicsig`, `DerivePQLogicSig`,
  `DerivePQLogicSigWithCompilation`, `GetAddressFromPublicKey`, `isOnTheCurve`;
* `algorand/send.go` — `dummyTxnNeeded`, `makeSendGroup`, `signDummyTxn`, `Send`;
* `falcongo/falcon.go` — `KeyPair.Sign`, `KeyPair.SignBytes`;
* `cli/algorand.go` — the key-loading step of `runAlgorandAddress` / `runAlgorandSend`.

External collaborators (the Algorand SDK address hash, the edwards25519 decoder, the
base32 address encoder, the algod client, the Falcon primitive, SHA-512/256) are kept
abstract as oracle function parameters, exactly as the specification treats them
(black boxes).  Bytes are modelled as `List Nat`; `uint64` arithmetic is reduced
modulo `2 ^ 64` where the Go code can overflow.
-/

namespace FalconSig

/-- Bytes of a Go `[]byte` value. -/
abbrev Bytes := List Nat

/-- External primitives used by the address-derivation component:
`addressOf` models `crypto.LogicSigAccount.Address()` (the ledger-defined hash of the
program bytes into a 32-byte address), `onCurve` models the edwards25519 decode test
inside `isOnTheCurve`, and `encodeAddr` models `types.Address.String()` (base32 with
checksum). -/
structure Oracles where
  addressOf : Bytes → Bytes
  onCurve : Bytes → Bool
  encodeAddr : Bytes → Bytes

/-- Embeds `isOnTheCurve` from `algorand/address.go`: true iff the 32-byte value
decodes to a valid edwards25519 curve point (the decode itself is the external
`filippo.io/edwards25519` library, abstracted by the oracle). -/
def isOnTheCurve (O : Oracles) (address : Bytes) : Bool :=
  O.onCurve address

/-- Size of a Falcon-1024 public key (`falcon.PublicKey` is `[1793]byte`). -/
def FalconPublicKeySize : Nat := 1793

/-- Embeds `patchPrecompiledPQlogicsig` from `algorand/address.go`: the constant
precompiled prefix has its byte at offset 4 (the `bytecblock` constant) replaced by
the counter byte, then the 1793 public-key bytes and the `falcon_verify` opcode
`0x85` are appended. -/
def patchPrecompiledPQlogicsig (publicKey : Bytes) (counter : Nat) : Bytes :=
  let precompiled : Bytes :=
    [0x0c, 0x26, 0x01, 0x01, 0x00, 0x31, 0x17, 0x2d, 0x80, 0x81, 0x0e]
  (precompiled.set 4 (counter % 256)) ++ publicKey ++ [0x85]

/-- Embeds `types.LogicSig`: the program bytes and the argument list. -/
structure LogicSig where
  logic : Bytes
  args : List Bytes
deriving Repr, DecidableEq

/-- Embeds `crypto.LogicSigAccount` (no delegation key is ever set in this code). -/
structure LogicSigAccount where
  lsig : LogicSig
deriving Repr, DecidableEq

/-- Error values returned by the embedded code (Go `error` interface values).
`errInvalidFalconPublicKey` is `ErrInvalidFalconPublicKey` of `algorand/address.go`;
the remaining constructors stand for the distinct external-failure values that the
oracles may produce and the code propagates. -/
inductive Err where
  | errInvalidFalconPublicKey
  | clientUnavailable (code : Nat)
  | paramsUnavailable (code : Nat)
  | invalidAddress
  | signFailed (code : Nat)
  | lsigSignFailed (code : Nat)
  | submitRejected (code : Nat)
  | confirmFailed (code : Nat)
deriving Repr, DecidableEq

/-- Number of counter values tried by `DerivePQLogicSig` (`maxIterations := 256`). -/
def maxIterations : Nat := 256

/-- The candidate logic-sig account built in one iteration of the search loop of
`DerivePQLogicSig`. -/
def candidateAccount (publicKey : Bytes) (counter : Nat) : LogicSigAccount :=
  ⟨⟨patchPrecompiledPQlogicsig publicKey counter, []⟩⟩

/-- The search loop body of `DerivePQLogicSig` from `algorand/address.go`, over the
remaining list of counter values: build the patched program, hash it to an address,
return at the first counter whose address is not on the curve, and fall through to
`ErrInvalidFalconPublicKey` when the counters are exhausted. -/
def deriveLoop (O : Oracles) (publicKey : Bytes) : List Nat → Except Err LogicSigAccount
  | [] => .error .errInvalidFalconPublicKey
  | counter :: rest =>
    let lsig := candidateAccount publicKey counter
    let lsa := O.addressOf lsig.lsig.logic
    if isOnTheCurve O lsa then deriveLoop O publicKey rest
    else .ok lsig

/-- Embeds `DerivePQLogicSig` from `algorand/address.go`:
`for counter := range maxIterations { ... }` with early return. -/
def DerivePQLogicSig (O : Oracles) (publicKey : Bytes) : Except Err LogicSigAccount :=
  deriveLoop O publicKey (List.range maxIterations)

/-- Embeds `GetAddressFromPublicKey` from `algorand/address.go`: derive the
logic sig, hash it to the 32-byte address, and render the address string. -/
def GetAddressFromPublicKey (O : Oracles) (publicKey : Bytes) : Except Err Bytes :=
  match DerivePQLogicSig O publicKey with
  | .error e => .error e
  | .ok lsig => .ok (O.encodeAddr (O.addressOf lsig.lsig.logic))

/-- Pure specification of the search: the first counter in `0, ..., 255` whose
derived address fails the curve test, found with `List.find?`. -/
def deriveSpecFun (O : Oracles) (publicKey : Bytes) : Except Err LogicSigAccount :=
  match (List.range maxIterations).find?
      (fun c => !(isOnTheCurve O (O.addressOf (patchPrecompiledPQlogicsig publicKey c)))) with
  | some c => .ok (candidateAccount publicKey c)
  | none => .error .errInvalidFalconPublicKey

/-- The loop of `DerivePQLogicSig` computes `List.find?` of the curve-avoidance
predicate over the counter list. -/
theorem deriveLoop_eq_find (O : Oracles) (publicKey : Bytes) (l : List Nat) :
    deriveLoop O publicKey l =
      match l.find?
          (fun c => !(isOnTheCurve O (O.addressOf (patchPrecompiledPQlogicsig publicKey c)))) with
      | some c => .ok (candidateAccount publicKey c)
      | none => .error .errInvalidFalconPublicKey := by
  induction l with
  | nil => rfl
  | cons c rest ih =>
    by_cases hc : isOnTheCurve O (O.addressOf (patchPrecompiledPQlogicsig publicKey c)) = true
    · simp [deriveLoop, List.find?, hc, candidateAccount, ih]
    · simp only [Bool.not_eq_true] at hc
      simp [deriveLoop, List.find?, hc, candidateAccount]

/-- Inversion for a successful search: the loop result is the candidate at the
counter that `List.find?` locates. -/
theorem deriveLoop_ok (O : Oracles) (publicKey : Bytes) (l : List Nat) (acc : LogicSigAccount)
    (h : deriveLoop O publicKey l = .ok acc) :
    ∃ c, l.find?
        (fun c => !(isOnTheCurve O (O.addressOf (patchPrecompiledPQlogicsig publicKey c))))
        = some c ∧ acc = candidateAccount publicKey c := by
  rw [deriveLoop_eq_find] at h
  cases hf : l.find?
      (fun c => !(isOnTheCurve O (O.addressOf (patchPrecompiledPQlogicsig publicKey c)))) with
  | none => rw [hf] at h; exact absurd h (by simp)
  | some c =>
    rw [hf] at h
    exact ⟨c, rfl, by injection h with h; exact h.symm⟩

/-- C1: for every Falcon public key on which `DerivePQLogicSig` returns successfully,
the address derived from the returned LogicSig program is not a valid point on the
Ed25519 curve: `isOnTheCurve` of the address bytes is `false`. -/
theorem derive_result_not_on_curve (O : Oracles) (publicKey : Bytes) (acc : LogicSigAccount)
    (h : DerivePQLogicSig O publicKey = .ok acc) :
    isOnTheCurve O (O.addressOf acc.lsig.logic) = false := by
  obtain ⟨c, hf, hacc⟩ := deriveLoop_ok O publicKey (List.range maxIterations) acc h
  have hp := List.find?_some hf
  simp only [Bool.not_eq_true'] at hp
  rw [hacc]
  exact hp

/-- Oracle instance for concrete evaluation: the address is the program itself and no
address is ever on the curve. -/
def oracleAllOff : Oracles :=
  { addressOf := fun l => l, onCurve := fun _ => false, encodeAddr := fun a => a }

/-- The all-zero Falcon public key (1793 zero bytes). -/
def zeroKey : Bytes := List.replicate FalconPublicKeySize 0

theorem derive_result_not_on_curve_witness :
    DerivePQLogicSig oracleAllOff zeroKey = .ok (candidateAccount zeroKey 0) ∧
    isOnTheCurve oracleAllOff
      (oracleAllOff.addressOf (candidateAccount zeroKey 0).lsig.logic) = false :=
  ⟨rfl, derive_result_not_on_curve oracleAllOff zeroKey (candidateAccount zeroKey 0) rfl⟩

/-- C2: the search tries counters `0, 1, ...` below the bound 256, returning at the
first (minimal) counter whose derived address is not on the curve, and returns the
typed error `ErrInvalidFalconPublicKey` exactly when every one of the 256 counter
values yields an on-curve address. -/
theorem derive_search_minimal_and_exhaustion (O : Oracles) (publicKey : Bytes) :
    (∀ acc, DerivePQLogicSig O publicKey = .ok acc →
      ∃ c, c < maxIterations ∧ acc = candidateAccount publicKey c ∧
        isOnTheCurve O (O.addressOf (patchPrecompiledPQlogicsig publicKey c)) = false ∧
        ∀ d, d < c →
          isOnTheCurve O (O.addressOf (patchPrecompiledPQlogicsig publicKey d)) = true) ∧
    (DerivePQLogicSig O publicKey = .error .errInvalidFalconPublicKey ↔
      ∀ c, c < maxIterations →
        isOnTheCurve O (O.addressOf (patchPrecompiledPQlogicsig publicKey c)) = true) := by
  constructor
  · intro acc h
    obtain ⟨c, hf, hacc⟩ := deriveLoop_ok O publicKey (List.range maxIterations) acc h
    rw [List.find?_eq_some_iff_getElem] at hf
    obtain ⟨hp, i, hi, hic, hmin⟩ := hf
    rw [List.getElem_range] at hic
    subst hic
    refine ⟨i, by simpa using hi, hacc, by simpa using hp, ?_⟩
    intro d hd
    have := hmin d (by omega)
    rw [List.getElem_range] at this
    simpa using this
  · rw [DerivePQLogicSig, deriveLoop_eq_find]
    cases hf : (List.range maxIterations).find?
        (fun c => !(isOnTheCurve O (O.addressOf (patchPrecompiledPQlogicsig publicKey c)))) with
    | none =>
      rw [List.find?_eq_none] at hf
      simp only [reduceCtorEq, true_iff]
      intro c hc
      have := hf c (List.mem_range.mpr hc)
      simpa using this
    | some c =>
      have hp := List.find?_some hf
      have hm := List.mem_range.mp (List.mem_of_find?_eq_some hf)
      simp only [reduceCtorEq, false_iff, not_forall]
      exact ⟨c, hm, by simpa using hp⟩

/-- Oracle instance whose address is the counter byte of the program, and for which
exactly the addresses of counters 0 and 1 are on the curve, exercising minimality. -/
def oracleCounterProbe : Oracles :=
  { addressOf := fun l => [l.getD 4 0],
    onCurve := fun a => a == [0] || a == [1],
    encodeAddr := fun a => a }

theorem derive_search_minimal_witness :
    ∃ c, c < maxIterations ∧
      candidateAccount zeroKey 2 = candidateAccount zeroKey c ∧
      isOnTheCurve oracleCounterProbe
        (oracleCounterProbe.addressOf (patchPrecompiledPQlogicsig zeroKey c)) = false ∧
      ∀ d, d < c →
        isOnTheCurve oracleCounterProbe
          (oracleCounterProbe.addressOf (patchPrecompiledPQlogicsig zeroKey d)) = true :=
  (derive_search_minimal_and_exhaustion oracleCounterProbe zeroKey).1
    (candidateAccount zeroKey 2) (by rfl)

/-- C4: derivation is deterministic: the imperative search loop equals the pure
function `deriveSpecFun` of the public key alone (given the deterministic external
hash and curve-test primitives), and `GetAddressFromPublicKey` is the corresponding
pure function of the public key; repeated calls therefore yield identical
(counter, address) pairs, with no hidden state. -/
theorem derive_deterministic (O : Oracles) (publicKey : Bytes) :
    DerivePQLogicSig O publicKey = deriveSpecFun O publicKey ∧
    GetAddressFromPublicKey O publicKey =
      (match deriveSpecFun O publicKey with
       | .error e => .error e
       | .ok lsig => .ok (O.encodeAddr (O.addressOf lsig.lsig.logic))) := by
  have h1 : DerivePQLogicSig O publicKey = deriveSpecFun O publicKey := by
    rw [DerivePQLogicSig, deriveLoop_eq_find, deriveSpecFun]
  exact ⟨h1, by rw [GetAddressFromPublicKey, h1]⟩

/-- Modelled from the spec: the embedded TEAL template `teal/PQlogicsigTMPL.teal` and
the algod compiler service called by `CompileLogicSig` are missing from the source
snapshot (the compiler is the ledger's external service).  Per the spec (§4.1) the
reference path renders the symbolic TEAL source with the counter and the public key
substituted and compiles it via the ledger's compiler; the doc comment of
`patchPrecompiledPQlogicsig` documents the bytes this program assembles to:
`#pragma version 12` (`0c`), `bytecblock <counter>` (`26 01 01 cc`), `txn TxID`
(`31 17`), `arg 0` (`2d`), `pushbytes <1793-byte key>` (`80 81 0e` then the key) and
`falcon_verify` (`85`). -/
def compilePQTeal (publicKey : Bytes) (counter : Nat) : Bytes :=
  [0x0c] ++ [0x26, 0x01, 0x01, counter % 256] ++ [0x31, 0x17] ++ [0x2d]
    ++ [0x80, 0x81, 0x0e] ++ publicKey ++ [0x85]

/-- The search loop of `DerivePQLogicSigWithCompilation` from `algorand/address.go`,
identical to the loop of `DerivePQLogicSig` except that each candidate program is
produced by compiling the substituted TEAL source (modelled by `compilePQTeal`). -/
def deriveCompLoop (O : Oracles) (publicKey : Bytes) : List Nat → Except Err LogicSigAccount
  | [] => .error .errInvalidFalconPublicKey
  | counter :: rest =>
    let lsig : LogicSigAccount := ⟨⟨compilePQTeal publicKey counter, []⟩⟩
    let lsa := O.addressOf lsig.lsig.logic
    if isOnTheCurve O lsa then deriveCompLoop O publicKey rest
    else .ok lsig

/-- Embeds `DerivePQLogicSigWithCompilation` from `algorand/address.go`. -/
def DerivePQLogicSigWithCompilation (O : Oracles) (publicKey : Bytes) :
    Except Err LogicSigAccount :=
  deriveCompLoop O publicKey (List.range maxIterations)

/-- C3: for every public key and counter the fast patch path and the compiled
reference path produce bit-for-bit identical control-program bytes, and the two
derivation functions agree on every public key (hence produce the same address). -/
theorem compile_patch_equivalence (O : Oracles) (publicKey : Bytes) (counter : Nat) :
    compilePQTeal publicKey counter = patchPrecompiledPQlogicsig publicKey counter ∧
    DerivePQLogicSigWithCompilation O publicKey = DerivePQLogicSig O publicKey := by
  refine ⟨rfl, ?_⟩
  rw [DerivePQLogicSigWithCompilation, DerivePQLogicSig]
  generalize List.range maxIterations = l
  induction l with
  | nil => rfl
  | cons c rest ih =>
    show deriveCompLoop O publicKey (c :: rest) = deriveLoop O publicKey (c :: rest)
    rw [deriveCompLoop, deriveLoop]
    exact if_congr (by rfl) ih rfl

/-- The four-part decomposition asserted by the claim: fixed prologue, counter byte,
public key bytes, fixed suffix, with the counter byte immediately preceding the key. -/
def claimedFourPartLayout (P S : Bytes) : Prop :=
  ∀ publicKey counter, publicKey.length = FalconPublicKeySize → counter < 256 →
    patchPrecompiledPQlogicsig publicKey counter = P ++ [counter] ++ publicKey ++ S

/-- A public key whose first byte is `0xff`, separating the key bytes from the fixed
opcodes that follow the counter byte. -/
def probeKey : Bytes := 0xff :: List.replicate 1792 0

/-- Right-associated normal form of the patched program, used to localise the
counter byte and the bytes around it. -/
theorem patch_decomp (publicKey : Bytes) (counter : Nat) (h : counter < 256) :
    patchPrecompiledPQlogicsig publicKey counter =
      [0x0c, 0x26, 0x01, 0x01] ++ counter ::
        ([0x31, 0x17, 0x2d, 0x80, 0x81, 0x0e] ++ (publicKey ++ [0x85])) := by
  simp [patchPrecompiledPQlogicsig, Nat.mod_eq_of_lt h]

/-- C9 (counterexample): no fixed prologue and suffix realise the claimed four-part
concatenation: the counter byte sits at offset 4 (forced by comparing counters 0 and
1 on the all-zero key), yet byte 5 of the program is the fixed opcode `0x31`, not the
first public-key byte (witnessed by `probeKey`, whose first byte is `0xff`). -/
theorem program_layout_counterexample : ¬ ∃ P S, claimedFourPartLayout P S := by
  rintro ⟨P, S, hPS⟩
  have hzlen : zeroKey.length = FalconPublicKeySize := by
    simp [zeroKey]
  have h0 := hPS zeroKey 0 hzlen (by norm_num)
  have h1 := hPS zeroKey 1 hzlen (by norm_num)
  rw [patch_decomp zeroKey 0 (by norm_num)] at h0
  rw [patch_decomp zeroKey 1 (by norm_num)] at h1
  rw [List.append_assoc, List.append_assoc] at h0 h1
  -- the byte right after the prologue is the counter byte
  have hA : (([0x0c, 0x26, 0x01, 0x01] ++ 0 ::
      ([0x31, 0x17, 0x2d, 0x80, 0x81, 0x0e] ++ (zeroKey ++ [0x85]))).get? P.length) = some 0 := by
    rw [h0, List.get?_append_right (Nat.le_refl P.length), Nat.sub_self]
    rfl
  have hB : (([0x0c, 0x26, 0x01, 0x01] ++ 1 ::
      ([0x31, 0x17, 0x2d, 0x80, 0x81, 0x0e] ++ (zeroKey ++ [0x85]))).get? P.length) = some 1 := by
    rw [h1, List.get?_append_right (Nat.le_refl P.length), Nat.sub_self]
    rfl
  -- the prologue has at most 11 bytes
  have hlenP : P.length ≤ 11 := by
    have hlen := congrArg List.length h0
    simp only [List.length_append, List.length_cons, List.length_nil, zeroKey,
      FalconPublicKeySize, List.length_replicate] at hlen
    omega
  -- the two candidate programs agree everywhere except at offset 4
  have hagree : ∀ m, m ≤ 11 → m ≠ 4 →
      (([0x0c, 0x26, 0x01, 0x01] ++ 0 ::
        ([0x31, 0x17, 0x2d, 0x80, 0x81, 0x0e] ++ (zeroKey ++ [0x85]))).get? m) =
      (([0x0c, 0x26, 0x01, 0x01] ++ 1 ::
        ([0x31, 0x17, 0x2d, 0x80, 0x81, 0x0e] ++ (zeroKey ++ [0x85]))).get? m) := by
    intro m hm hne
    interval_cases m
    all_goals first
      | exact absurd rfl hne
      | rfl
  -- hence the prologue has exactly 4 bytes
  have hP4 : P.length = 4 := by
    by_contra hne
    have hcmp := hagree P.length hlenP hne
    rw [hA, hB] at hcmp
    exact absurd hcmp (by decide)
  -- but then byte 5 would be the first public-key byte
  have hplen : probeKey.length = FalconPublicKeySize := by
    show (0xff :: List.replicate 1792 0).length = FalconPublicKeySize
    rw [List.length_cons, List.length_replicate]
    rfl
  have h2 := hPS probeKey 0 hplen (by norm_num)
  rw [patch_decomp probeKey 0 (by norm_num)] at h2
  rw [List.append_assoc, List.append_assoc] at h2
  have h5 : (([0x0c, 0x26, 0x01, 0x01] ++ 0 ::
      ([0x31, 0x17, 0x2d, 0x80, 0x81, 0x0e] ++ (probeKey ++ [0x85]))).get? 5) = some 0x31 := by
    rfl
  rw [h2, List.get?_append_right (by omega : P.length ≤ 5), hP4] at h5
  have hval : (([0] ++ (probeKey ++ S)).get? (5 - 4)) = some 0xff := by
    rfl
  rw [hval] at h5
  exact absurd h5 (by decide)

/-- C9 (amended): the synthesized control program is exactly the concatenation
{4-byte fixed prologue `0c 26 01 01`} ++ {counter byte} ++ {6 fixed opcode bytes
`31 17 2d 80 81 0e`} ++ {public key bytes} ++ {`falcon_verify` suffix `85`}; the
counter byte depends only on the counter, and no other byte of the program depends on
any input. -/
theorem program_layout_five_part (publicKey : Bytes) (counter : Nat) (h : counter < 256) :
    patchPrecompiledPQlogicsig publicKey counter =
      [0x0c, 0x26, 0x01, 0x01] ++ [counter] ++ [0x31, 0x17, 0x2d, 0x80, 0x81, 0x0e]
        ++ publicKey ++ [0x85] := by
  simp [patchPrecompiledPQlogicsig, Nat.mod_eq_of_lt h]

theorem program_layout_five_part_witness :
    7 < 256 ∧
    patchPrecompiledPQlogicsig zeroKey 7 =
      [0x0c, 0x26, 0x01, 0x01] ++ [7] ++ [0x31, 0x17, 0x2d, 0x80, 0x81, 0x0e]
        ++ zeroKey ++ [0x85] :=
  ⟨by norm_num, program_layout_five_part zeroKey 7 (by norm_num)⟩

/-- Embeds the Go statement `copy(pk[:], pub)` of `runAlgorandAddress` and
`runAlgorandSend` in `cli/algorand.go`: copy into the zero-initialised fixed-size
array `falcongo.PublicKey` (`[1793]byte`) copies `min(1793, len(pub))` bytes and
leaves the remaining array bytes zero. -/
def copyToPublicKey (pub : Bytes) : Bytes :=
  pub.take FalconPublicKeySize ++ List.replicate (FalconPublicKeySize - pub.length) 0

/-- Outcome of the key-handling step of the CLI commands in `cli/algorand.go`: the
public key is either absent from the key file (exit code 2) or copied into the
fixed-size array before derivation proceeds. -/
inductive CliKeyOutcome where
  | missingPublicKey
  | proceed (publicKey : Bytes)
deriving Repr, DecidableEq

/-- Embeds the key-handling step shared by `runAlgorandAddress` (lines 55-62) and
`runAlgorandSend` (lines 128-139) of `cli/algorand.go`: reject only a missing key,
then `copy` the bytes into the fixed-size array. -/
def runAlgorandAddressKeyStep (pub : Option Bytes) : CliKeyOutcome :=
  match pub with
  | none => .missingPublicKey
  | some p => .proceed (copyToPublicKey p)

/-- C7 (counterexample): a 1-byte public-key input is not rejected: the CLI proceeds
with the key silently zero-padded to 1793 bytes, so no `InvalidKeySize` failure
occurs for wrong-sized input. -/
theorem cli_key_size_counterexample :
    ([0xab] : Bytes).length ≠ FalconPublicKeySize ∧
    runAlgorandAddressKeyStep (some [0xab]) =
      .proceed (0xab :: List.replicate 1792 0) := by
  exact ⟨by decide, rfl⟩

/-- C7 (amended): the CLI never rejects a public key by size: the key-handling step
always proceeds, silently zero-padding an input shorter than 1793 bytes and silently
truncating a longer one, so the key handed to synthesis always has exactly 1793
bytes and no `InvalidKeySize` error path exists. -/
theorem cli_key_copy_semantics (pub : Bytes) :
    runAlgorandAddressKeyStep (some pub) = .proceed (copyToPublicKey pub) ∧
    (copyToPublicKey pub).length = FalconPublicKeySize ∧
    (pub.length ≤ FalconPublicKeySize →
      copyToPublicKey pub = pub ++ List.replicate (FalconPublicKeySize - pub.length) 0) ∧
    (FalconPublicKeySize ≤ pub.length →
      copyToPublicKey pub = pub.take FalconPublicKeySize) := by
  refine ⟨rfl, ?_, ?_, ?_⟩
  · simp only [copyToPublicKey, List.length_append, List.length_take,
      List.length_replicate]
    omega
  · intro hle
    rw [copyToPublicKey, List.take_of_length_le hle]
  · intro hge
    rw [copyToPublicKey]
    have : FalconPublicKeySize - pub.length = 0 := by omega
    rw [this]
    simp

theorem cli_key_copy_semantics_witness :
    copyToPublicKey [0xab] =
      [0xab] ++ List.replicate (FalconPublicKeySize - ([0xab] : Bytes).length) 0 :=
  (cli_key_copy_semantics [0xab]).2.2.1 (by decide)

/-- Embeds the `Network` enum of the algorand package. -/
inductive Network where
  | mainNet
  | testNet
  | betaNet
  | devNet
deriving Repr, DecidableEq

/-- The fields of `types.SuggestedParams` that the send path reads or writes
(`Fee`, `MinFee`, `FlatFee`, and the opaque rest carried into transactions). -/
structure SuggestedParams where
  fee : Nat
  minFee : Nat
  flatFee : Bool
  firstValid : Nat
  lastValid : Nat
  genesisID : Bytes
  genesisHash : Bytes
deriving Repr, DecidableEq, Inhabited

/-- The fields of `types.Transaction` that the send path reads or writes. -/
structure Transaction where
  sender : Bytes
  receiver : Bytes
  amount : Nat
  fee : Nat
  note : Bytes
  firstValid : Nat
  lastValid : Nat
  genesisID : Bytes
  genesisHash : Bytes
  group : Bytes
deriving Repr, DecidableEq, Inhabited

/-- The algod client operations used by `Send` and `makeSendGroup`
(`SuggestedParams`, `SendRawTransaction`, `WaitForConfirmation`); each is an
external network call that yields a value or an error. -/
structure AlgodClient where
  suggestedParams : Except Err SuggestedParams
  sendRawTransaction : Bytes → Except Err Bytes
  waitForConfirmation : Bytes → Nat → Except Err Unit
deriving Inhabited

/-- External collaborators of the send path: `getClient` models `GetAlgodClient`
(environment/URL dependent), `validAddr` the address decoding inside
`transaction.MakePaymentTxn`, `estFee` the SDK fee estimation used when `FlatFee` is
unset, `computeGroupID` is `crypto.ComputeGroupID`, `transactionID` is
`crypto.TransactionID` (the raw 32-byte canonical id), `falconSignCompressed` is
`falcon.PrivateKey.SignCompressed`, `hash512_256` is `sha512.Sum512_256`,
`signLogicSigTransaction` is `crypto.SignLogicSigTransaction` (returning the id and
the encoded signed transaction), and `dummyLsigCompiled` is the embedded
`teal/dummyLsig.teal.tok` program bytes (repository data missing from the source
snapshot, kept opaque). -/
structure SendEnv where
  core : Oracles
  getClient : Network → Except Err AlgodClient
  validAddr : Bytes → Bool
  estFee : SuggestedParams → Nat
  computeGroupID : List Transaction → Bytes
  transactionID : Transaction → Bytes
  falconSignCompressed : Bytes → Bytes → Except Err Bytes
  hash512_256 : Bytes → Bytes
  signLogicSigTransaction : LogicSig → Transaction → Except Err (Bytes × Bytes)
  dummyLsigCompiled : Bytes

/-- Embeds `falcongo.KeyPair` (a Falcon-1024 public/private key pair). -/
structure KeyPair where
  publicKey : Bytes
  privateKey : Bytes
deriving Repr, DecidableEq

/-- Embeds `KeyPair.SignBytes` from `falcongo/falcon.go`: sign the provided bytes
directly with the Falcon private key (no pre-hashing). -/
def KeyPair.SignBytes (env : SendEnv) (kp : KeyPair) (data : Bytes) : Except Err Bytes :=
  env.falconSignCompressed kp.privateKey data

/-- Embeds `KeyPair.Sign` from `falcongo/falcon.go`: hash the message with
SHA-512/256 and sign the digest. -/
def KeyPair.Sign (env : SendEnv) (kp : KeyPair) (message : Bytes) : Except Err Bytes :=
  KeyPair.SignBytes env kp (env.hash512_256 message)

/-- Embeds `SendOptions` from `algorand/send.go`. -/
structure SendOptions where
  network : Network
  fee : Nat
  note : Bytes
  useFlatFee : Bool
deriving Repr, DecidableEq

/-- Embeds the constant `dummyTxnNeeded = 3` of `algorand/send.go`: the number of
filler transactions needed to cover the 3030-byte logic sig under the 1000-byte
per-transaction limit. -/
def dummyTxnNeeded : Nat := 3

/-- Modulus of Go `uint64` arithmetic. -/
def U64 : Nat := 2 ^ 64

/-- The fee `transaction.MakePaymentTxn` assigns from the suggested parameters: the
flat fee when `FlatFee` is set, otherwise the SDK's size-based estimate (external,
abstracted by `estFee`). -/
def paymentFee (env : SendEnv) (sp : SuggestedParams) : Nat :=
  if sp.flatFee then sp.fee else env.estFee sp

/-- Embeds the external SDK helper `transaction.MakePaymentTxn`: validate the two
addresses, then build the payment transaction from the suggested parameters with an
empty group id. -/
def MakePaymentTxn (env : SendEnv) (fromAddr toAddr : Bytes) (amount : Nat)
    (note : Bytes) (sp : SuggestedParams) : Except Err Transaction :=
  if env.validAddr fromAddr && env.validAddr toAddr then
    .ok { sender := fromAddr, receiver := toAddr, amount := amount,
          fee := paymentFee env sp, note := note,
          firstValid := sp.firstValid, lastValid := sp.lastValid,
          genesisID := sp.genesisID, genesisHash := sp.genesisHash, group := [] }
  else .error .invalidAddress

/-- The address string of the dummy logic sig account built in `makeSendGroup`
(`dummyLsig.Address()` then `.String()`). -/
def dummyLsigAddress (env : SendEnv) : Bytes :=
  env.core.encodeAddr (env.core.addressOf env.dummyLsigCompiled)

/-- The filler-building loop of `makeSendGroup`: for each index `i` build a
zero-amount payment from the dummy logic-sig address to itself with note `[i]`,
aborting on the first error (Go `for i := range dummyNeeded`). -/
def buildDummies (env : SendEnv) (sp : SuggestedParams) :
    List Nat → Except Err (List Transaction)
  | [] => .ok []
  | i :: rest =>
    match MakePaymentTxn env (dummyLsigAddress env) (dummyLsigAddress env) 0
        [i % 256] sp with
    | .error e => .error e
    | .ok dummyTxn =>
      match buildDummies env sp rest with
      | .error e => .error e
      | .ok txns => .ok (dummyTxn :: txns)

/-- Embeds `makeSendGroup` from `algorand/send.go`: fetch the client and the
suggested parameters, switch them to flat fee 0, raise the intended transaction's
fee by `dummyNeeded * MinFee` (Go `uint64` arithmetic), build the fillers, compute
one group id over the ordered sequence (intended first), and stamp it on every
element. -/
def makeSendGroup (env : SendEnv) (txn : Transaction) (network : Network)
    (dummyNeeded : Nat) : Except Err (List Transaction) :=
  match env.getClient network with
  | .error e => .error e
  | .ok client =>
  match client.suggestedParams with
  | .error e => .error e
  | .ok sp0 =>
  let sp : SuggestedParams := { sp0 with flatFee := true, fee := 0 }
  let txn1 : Transaction :=
    { txn with fee := (txn.fee + (dummyNeeded * sp.minFee) % U64) % U64 }
  match buildDummies env sp (List.range dummyNeeded) with
  | .error e => .error e
  | .ok dummies =>
  let txns := txn1 :: dummies
  let gid := env.computeGroupID txns
  .ok (txns.map fun t => { t with group := gid })

/-- Embeds `signDummyTxn` from `algorand/send.go`: sign the transaction with the
argument-free dummy logic sig and return the encoded signed transaction. -/
def signDummyTxn (env : SendEnv) (txn : Transaction) : Except Err Bytes :=
  match env.signLogicSigTransaction { logic := env.dummyLsigCompiled, args := [] } txn with
  | .error e => .error e
  | .ok p => .ok p.2

/-- The filler-signing loop of `Send`: sign each filler transaction and concatenate
the encoded results, aborting on the first error. -/
def signDummiesAcc (env : SendEnv) : List Transaction → Except Err Bytes
  | [] => .ok []
  | t :: rest =>
    match signDummyTxn env t with
    | .error e => .error e
    | .ok signed =>
      match signDummiesAcc env rest with
      | .error e => .error e
      | .ok bytes => .ok (signed ++ bytes)

/-- Observable external calls of one `Send` run; the trace makes "submission was
never attempted" and "this logic sig with these arguments signed this transaction"
statable in the pure embedding. -/
inductive Event where
  | falconSign (data : Bytes)
  | lsigSign (ls : LogicSig) (txn : Transaction)
  | submit (bytes : Bytes)
  | confirmWait (txid : Bytes) (rounds : Nat)
deriving Repr, DecidableEq

/-- Embeds `Send` from `algorand/send.go`, returning the Go result together with the
trace of signing/submission calls: derive the logic sig, fetch the client and the
suggested parameters (flat-fee override per options), build the intended payment and
the group, sign the group's first transaction id with the Falcon key (`SignBytes` on
`crypto.TransactionID`), attach the signature as the single logic-sig argument, sign
the fillers, submit the concatenation, and wait at most 9 rounds for confirmation. -/
def Send (env : SendEnv) (keyPair : KeyPair) (toAddr : Bytes) (amount : Nat)
    (opt : SendOptions) : Except Err Bytes × List Event :=
  match DerivePQLogicSig env.core keyPair.publicKey with
  | .error e => (.error e, [])
  | .ok lsig0 =>
  let lsigAddress := env.core.encodeAddr (env.core.addressOf lsig0.lsig.logic)
  match env.getClient opt.network with
  | .error e => (.error e, [])
  | .ok client =>
  match client.suggestedParams with
  | .error e => (.error e, [])
  | .ok sp0 =>
  let sp := if opt.useFlatFee then { sp0 with flatFee := true, fee := opt.fee } else sp0
  match MakePaymentTxn env lsigAddress toAddr amount opt.note sp with
  | .error e => (.error e, [])
  | .ok sendTxn =>
  match makeSendGroup env sendTxn opt.network dummyTxnNeeded with
  | .error e => (.error e, [])
  | .ok sendGroup =>
  let txnToSign := sendGroup.headI
  match KeyPair.SignBytes env keyPair (env.transactionID txnToSign) with
  | .error e => (.error e, [.falconSign (env.transactionID txnToSign)])
  | .ok signature =>
  let lsigSigned : LogicSig := { logic := lsig0.lsig.logic, args := [signature] }
  match env.signLogicSigTransaction lsigSigned txnToSign with
  | .error e =>
    (.error e, [.falconSign (env.transactionID txnToSign), .lsigSign lsigSigned txnToSign])
  | .ok (txID, signedTxn) =>
  match signDummiesAcc env sendGroup.tail with
  | .error e =>
    (.error e, [.falconSign (env.transactionID txnToSign), .lsigSign lsigSigned txnToSign])
  | .ok dummyBytes =>
  let sendBytes := signedTxn ++ dummyBytes
  match client.sendRawTransaction sendBytes with
  | .error e =>
    (.error e, [.falconSign (env.transactionID txnToSign), .lsigSign lsigSigned txnToSign,
      .submit sendBytes])
  | .ok _ =>
  match client.waitForConfirmation txID 9 with
  | .error e =>
    (.error e, [.falconSign (env.transactionID txnToSign), .lsigSign lsigSigned txnToSign,
      .submit sendBytes, .confirmWait txID 9])
  | .ok _ =>
  (.ok txID, [.falconSign (env.transactionID txnToSign), .lsigSign lsigSigned txnToSign,
    .submit sendBytes, .confirmWait txID 9])

/-- Inversion of the filler-building loop: on success it yields one transaction per
index, each a zero-amount self-payment of the dummy logic-sig address with flat fee
and an empty group id. -/
theorem buildDummies_ok (env : SendEnv) (sp : SuggestedParams) :
    ∀ l ds, buildDummies env sp l = .ok ds →
      ds.length = l.length ∧
      ∀ t ∈ ds, t.amount = 0 ∧ t.sender = dummyLsigAddress env ∧
        t.receiver = dummyLsigAddress env ∧ t.fee = paymentFee env sp ∧ t.group = [] := by
  intro l
  induction l with
  | nil =>
    intro ds h
    injection h with h
    subst h
    exact ⟨rfl, by simp⟩
  | cons i rest ih =>
    intro ds h
    simp only [buildDummies] at h
    cases hm : MakePaymentTxn env (dummyLsigAddress env) (dummyLsigAddress env) 0
        [i % 256] sp with
    | error e => simp only [hm] at h; exact absurd h (by simp)
    | ok dummyTxn =>
      simp only [hm] at h
      cases hr : buildDummies env sp rest with
      | error e => simp only [hr] at h; exact absurd h (by simp)
      | ok txns =>
        simp only [hr] at h
        injection h with h
        subst h
        obtain ⟨hlen, hmem⟩ := ih txns hr
        refine ⟨by simp [hlen], ?_⟩
        intro t ht
        rcases List.mem_cons.mp ht with hth | htr
        · subst hth
          rw [MakePaymentTxn] at hm
          by_cases hv : (env.validAddr (dummyLsigAddress env)
              && env.validAddr (dummyLsigAddress env)) = true
          · rw [if_pos hv] at hm
            injection hm with hm
            subst hm
            exact ⟨rfl, rfl, rfl, rfl, rfl⟩
          · rw [if_neg hv] at hm
            exact absurd hm (by simp)
        · exact hmem t htr

/-- Inversion of `makeSendGroup`: on success the group is the fee-raised intended
transaction followed by the fillers, all stamped with the group id computed over
that ordered sequence. -/
theorem makeSendGroup_ok (env : SendEnv) (txn : Transaction) (network : Network)
    (n : Nat) (g : List Transaction) (h : makeSendGroup env txn network n = .ok g) :
    ∃ client sp0 dummies txn1 gid,
      env.getClient network = .ok client ∧
      client.suggestedParams = .ok sp0 ∧
      buildDummies env { sp0 with flatFee := true, fee := 0 } (List.range n) = .ok dummies ∧
      txn1 = { txn with fee := (txn.fee + (n * sp0.minFee) % U64) % U64 } ∧
      gid = env.computeGroupID (txn1 :: dummies) ∧
      g = ((txn1 :: dummies).map fun t => { t with group := gid }) := by
  simp only [makeSendGroup] at h
  cases hc : env.getClient network with
  | error e => simp only [hc] at h; exact absurd h (by simp)
  | ok client =>
    simp only [hc] at h
    cases hp : client.suggestedParams with
    | error e => simp only [hp] at h; exact absurd h (by simp)
    | ok sp0 =>
      simp only [hp] at h
      cases hb : buildDummies env { sp0 with flatFee := true, fee := 0 } (List.range n) with
      | error e => simp only [hb] at h; exact absurd h (by simp)
      | ok dummies =>
        simp only [hb] at h
        injection h with h
        exact ⟨client, sp0, dummies, _, _, rfl, hp, hb, rfl, rfl, h.symm⟩

/-- C5: every group returned by `makeSendGroup` with the policy constant
`dummyTxnNeeded = 3` has exactly `1 + dummyTxnNeeded` transactions; the intended
payment is element 0 (same sender, receiver, amount and note); all elements carry
the one group identifier computed over the full ordered sequence, which is non-zero
whenever the external group-id hash is (hypothesis `hz`); and every filler has
amount 0 and identical sender and receiver (the dummy logic-sig address). -/
theorem makeSendGroup_group_shape (env : SendEnv) (txn : Transaction) (network : Network)
    (g : List Transaction)
    (h : makeSendGroup env txn network dummyTxnNeeded = .ok g)
    (hz : ∀ ts, env.computeGroupID ts ≠ List.replicate 32 0) :
    dummyTxnNeeded = 3 ∧
    g.length = 1 + dummyTxnNeeded ∧
    ∃ pre gid, gid = env.computeGroupID pre ∧
      g = pre.map (fun t => { t with group := gid }) ∧
      gid ≠ List.replicate 32 0 ∧
      (∀ t ∈ g, t.group = gid) ∧
      g.headI.sender = txn.sender ∧ g.headI.receiver = txn.receiver ∧
      g.headI.amount = txn.amount ∧ g.headI.note = txn.note ∧
      ∀ t ∈ g.tail, t.amount = 0 ∧ t.sender = dummyLsigAddress env ∧
        t.receiver = dummyLsigAddress env := by
  obtain ⟨client, sp0, dummies, txn1, gid, hc, hp, hb, rfl, rfl, rfl⟩ :=
    makeSendGroup_ok env txn network dummyTxnNeeded g h
  obtain ⟨hlen, hmem⟩ := buildDummies_ok env _ _ dummies hb
  refine ⟨rfl, ?_, _, _, rfl, rfl, hz _, ?_, rfl, rfl, rfl, rfl, ?_⟩
  · simp only [List.length_map, List.length_cons, hlen, List.length_range]
    omega
  · intro t ht
    obtain ⟨s, hs, rfl⟩ := List.mem_map.mp ht
    rfl
  · simp only [List.map_cons, List.tail_cons]
    intro t ht
    obtain ⟨s, hs, rfl⟩ := List.mem_map.mp ht
    obtain ⟨ha, hsend, hrecv, _, _⟩ := hmem s hs
    exact ⟨ha, hsend, hrecv⟩

/-- C6: in every group returned by `makeSendGroup`, the intended transaction's fee
is raised by exactly `dummyTxnNeeded` times the fetched minimum per-transaction fee
(the Go `uint64` sums do not wrap below `2 ^ 64`, hypothesis `hov`), and every
filler transaction's fee is 0 (flat fee zero), so no other element's fee is raised. -/
theorem makeSendGroup_fee_accounting (env : SendEnv) (txn : Transaction)
    (network : Network) (g : List Transaction) (client : AlgodClient)
    (sp0 : SuggestedParams)
    (hc : env.getClient network = .ok client)
    (hp : client.suggestedParams = .ok sp0)
    (h : makeSendGroup env txn network dummyTxnNeeded = .ok g)
    (hov : txn.fee + dummyTxnNeeded * sp0.minFee < U64) :
    g.headI.fee = txn.fee + dummyTxnNeeded * sp0.minFee ∧
    ∀ t ∈ g.tail, t.fee = 0 := by
  obtain ⟨client2, sp2, dummies, txn1, gid, hc2, hp2, hb, rfl, rfl, rfl⟩ :=
    makeSendGroup_ok env txn network dummyTxnNeeded g h
  rw [hc] at hc2
  injection hc2 with hc2
  subst hc2
  rw [hp] at hp2
  injection hp2 with hp2
  subst hp2
  obtain ⟨hlen, hmem⟩ := buildDummies_ok env _ _ dummies hb
  have hmod : (dummyTxnNeeded * sp0.minFee) % U64 = dummyTxnNeeded * sp0.minFee :=
    Nat.mod_eq_of_lt (by omega)
  constructor
  · simp only [List.map_cons, List.headI_cons]
    show (txn.fee + (dummyTxnNeeded * sp0.minFee) % U64) % U64 =
      txn.fee + dummyTxnNeeded * sp0.minFee
    rw [hmod]
    exact Nat.mod_eq_of_lt hov
  · simp only [List.map_cons, List.tail_cons]
    intro t ht
    obtain ⟨s, hs, rfl⟩ := List.mem_map.mp ht
    obtain ⟨_, _, _, hfee, _⟩ := hmem s hs
    show s.fee = 0
    rw [hfee]
    rfl

/-- C8: when the suggested-parameters fetch fails, `Send` returns exactly that error
value (unchanged in kind), with an empty external-call trace: no group is built, no
signing happens, and `SendRawTransaction` is never called. -/
theorem send_params_fetch_error_propagates (env : SendEnv) (kp : KeyPair)
    (toAddr : Bytes) (amount : Nat) (opt : SendOptions) (lsig0 : LogicSigAccount)
    (client : AlgodClient) (e : Err)
    (hd : DerivePQLogicSig env.core kp.publicKey = .ok lsig0)
    (hc : env.getClient opt.network = .ok client)
    (hp : client.suggestedParams = .error e) :
    Send env kp toAddr amount opt = (.error e, []) ∧
    ∀ b, Event.submit b ∉ (Send env kp toAddr amount opt).2 := by
  have hS : Send env kp toAddr amount opt = (.error e, []) := by
    simp only [Send, hd, hc, hp]
  refine ⟨hS, ?_⟩
  intro b
  rw [hS]
  simp

/-- C10: whenever `Send` succeeds, the bytes signed with the Falcon private key are
exactly `crypto.TransactionID` of the group's first (intended) transaction — signed
through `SignBytes`, which passes the raw bytes straight to the Falcon primitive —
and the resulting signature is attached as the single element of the derived logic
sig's argument list; `KeyPair.Sign`, by contrast, pre-hashes its message with
SHA-512/256 before calling `SignBytes`. -/
theorem send_signs_raw_transaction_id (env : SendEnv) (kp : KeyPair) (toAddr : Bytes)
    (amount : Nat) (opt : SendOptions) (txID : Bytes) (tr : List Event)
    (h : Send env kp toAddr amount opt = (.ok txID, tr)) :
    ∃ lsig0 sendGroup signature,
      DerivePQLogicSig env.core kp.publicKey = .ok lsig0 ∧
      (∃ sendTxn, makeSendGroup env sendTxn opt.network dummyTxnNeeded = .ok sendGroup) ∧
      KeyPair.SignBytes env kp (env.transactionID sendGroup.headI) = .ok signature ∧
      Event.lsigSign { logic := lsig0.lsig.logic, args := [signature] } sendGroup.headI ∈ tr ∧
      (∀ kp2 m, KeyPair.Sign env kp2 m = KeyPair.SignBytes env kp2 (env.hash512_256 m)) := by
  simp only [Send] at h
  cases hd : DerivePQLogicSig env.core kp.publicKey with
  | error e => simp only [hd] at h; exact absurd h (by simp)
  | ok lsig0 =>
  simp only [hd] at h
  cases hc : env.getClient opt.network with
  | error e => simp only [hc] at h; exact absurd h (by simp)
  | ok client =>
  simp only [hc] at h
  cases hp : client.suggestedParams with
  | error e => simp only [hp] at h; exact absurd h (by simp)
  | ok sp0 =>
  simp only [hp] at h
  cases hm : MakePaymentTxn env
      (env.core.encodeAddr (env.core.addressOf lsig0.lsig.logic)) toAddr amount opt.note
      (if opt.useFlatFee then { sp0 with flatFee := true, fee := opt.fee } else sp0) with
  | error e => simp only [hm] at h; exact absurd h (by simp)
  | ok sendTxn =>
  simp only [hm] at h
  cases hg : makeSendGroup env sendTxn opt.network dummyTxnNeeded with
  | error e => simp only [hg] at h; exact absurd h (by simp)
  | ok sendGroup =>
  simp only [hg] at h
  cases hsig : KeyPair.SignBytes env kp (env.transactionID sendGroup.headI) with
  | error e => simp only [hsig] at h; exact absurd h (by simp)
  | ok signature =>
  simp only [hsig] at h
  cases hls : env.signLogicSigTransaction
      { logic := lsig0.lsig.logic, args := [signature] } sendGroup.headI with
  | error e => simp only [hls] at h; exact absurd h (by simp)
  | ok p =>
  simp only [hls] at h
  cases hdum : signDummiesAcc env sendGroup.tail with
  | error e => simp only [hdum] at h; exact absurd h (by simp)
  | ok dummyBytes =>
  simp only [hdum] at h
  cases hsr : client.sendRawTransaction (p.2 ++ dummyBytes) with
  | error e => simp only [hsr] at h; exact absurd h (by simp)
  | ok r =>
  simp only [hsr] at h
  cases hw : client.waitForConfirmation p.1 9 with
  | error e => simp only [hw] at h; exact absurd h (by simp)
  | ok u =>
  simp only [hw] at h
  have htr : tr = [.falconSign (env.transactionID sendGroup.headI),
      .lsigSign { logic := lsig0.lsig.logic, args := [signature] } sendGroup.headI,
      .submit (p.2 ++ dummyBytes), .confirmWait p.1 9] := by
    have := congrArg Prod.snd h
    exact this.symm
  refine ⟨lsig0, sendGroup, signature, rfl, ⟨sendTxn, hg⟩, hsig, ?_, fun kp2 m => rfl⟩
  rw [htr]
  simp

deriving instance DecidableEq for Except

/-- Concrete suggested parameters for evaluation. -/
def spW : SuggestedParams :=
  { fee := 10, minFee := 5, flatFee := false, firstValid := 1, lastValid := 1000,
    genesisID := [3], genesisHash := [4] }

/-- Concrete algod client whose calls all succeed. -/
def clientW : AlgodClient :=
  { suggestedParams := .ok spW,
    sendRawTransaction := fun _ => .ok [],
    waitForConfirmation := fun _ _ => .ok () }

/-- Concrete send environment: every external primitive is a small deterministic
function, so whole runs evaluate. -/
def envW : SendEnv :=
  { core := oracleAllOff,
    getClient := fun _ => .ok clientW,
    validAddr := fun _ => true,
    estFee := fun sp => sp.fee,
    computeGroupID := fun _ => [1],
    transactionID := fun _ => [2],
    falconSignCompressed := fun _ data => .ok data,
    hash512_256 := fun data => 0 :: data,
    signLogicSigTransaction := fun _ _ => .ok ([5], [6]),
    dummyLsigCompiled := [7] }

/-- Concrete key pair for evaluation. -/
def kpW : KeyPair := { publicKey := [0], privateKey := [1] }

/-- Concrete send options for evaluation. -/
def optW : SendOptions := { network := .testNet, fee := 0, note := [], useFlatFee := false }

/-- Concrete intended transaction handed to `makeSendGroup`. -/
def txnW : Transaction :=
  { sender := [8], receiver := [9], amount := 100, fee := 10, note := [42],
    firstValid := 1, lastValid := 1000, genesisID := [3], genesisHash := [4], group := [] }

/-- The group-stamped filler transaction with note `[i]` that `makeSendGroup envW`
produces. -/
def dummyGW (i : Nat) : Transaction :=
  { sender := [7], receiver := [7], amount := 0, fee := 0, note := [i],
    firstValid := 1, lastValid := 1000, genesisID := [3], genesisHash := [4], group := [1] }

/-- The group `makeSendGroup envW txnW .testNet dummyTxnNeeded` returns. -/
def gW : List Transaction :=
  [{ txnW with fee := 25, group := [1] }, dummyGW 0, dummyGW 1, dummyGW 2]

theorem makeSendGroup_group_shape_witness :
    dummyTxnNeeded = 3 ∧
    gW.length = 1 + dummyTxnNeeded ∧
    ∃ pre gid, gid = envW.computeGroupID pre ∧
      gW = pre.map (fun t => { t with group := gid }) ∧
      gid ≠ List.replicate 32 0 ∧
      (∀ t ∈ gW, t.group = gid) ∧
      gW.headI.sender = txnW.sender ∧ gW.headI.receiver = txnW.receiver ∧
      gW.headI.amount = txnW.amount ∧ gW.headI.note = txnW.note ∧
      ∀ t ∈ gW.tail, t.amount = 0 ∧ t.sender = dummyLsigAddress envW ∧
        t.receiver = dummyLsigAddress envW :=
  makeSendGroup_group_shape envW txnW .testNet gW (by decide) (fun ts => by show ([1] : Bytes) ≠ List.replicate 32 0; decide)

theorem makeSendGroup_fee_accounting_witness :
    gW.headI.fee = txnW.fee + dummyTxnNeeded * spW.minFee ∧
    ∀ t ∈ gW.tail, t.fee = 0 :=
  makeSendGroup_fee_accounting envW txnW .testNet gW clientW spW (by rfl) (by rfl)
    (by decide) (by decide)

/-- Concrete algod client whose suggested-parameters fetch fails. -/
def clientPF : AlgodClient :=
  { suggestedParams := .error (.paramsUnavailable 42),
    sendRawTransaction := fun _ => .ok [],
    waitForConfirmation := fun _ _ => .ok () }

/-- Send environment whose parameter fetch fails. -/
def envPF : SendEnv := { envW with getClient := fun _ => .ok clientPF }

theorem send_params_fetch_error_witness :
    Send envPF kpW [9] 100 optW = (.error (.paramsUnavailable 42), []) ∧
    ∀ b, Event.submit b ∉ (Send envPF kpW [9] 100 optW).2 :=
  send_params_fetch_error_propagates envPF kpW [9] 100 optW
    (candidateAccount [0] 0) clientPF (.paramsUnavailable 42) (by rfl) (by rfl) (by rfl)

/-- The control program of the 1-byte evaluation key at counter 0. -/
def logicW : Bytes := patchPrecompiledPQlogicsig [0] 0

/-- The intended transaction `Send envW` builds (fee 10 raised to 25, stamped). -/
def headW : Transaction :=
  { sender := logicW, receiver := [9], amount := 100, fee := 25, note := [],
    firstValid := 1, lastValid := 1000, genesisID := [3], genesisHash := [4], group := [1] }

/-- The event trace of the successful `Send envW kpW [9] 100 optW` run. -/
def trW : List Event :=
  [.falconSign [2], .lsigSign { logic := logicW, args := [[2]] } headW,
   .submit [6, 6, 6, 6], .confirmWait [5] 9]

theorem send_signs_raw_transaction_id_witness :
    ∃ lsig0 sendGroup signature,
      DerivePQLogicSig envW.core kpW.publicKey = .ok lsig0 ∧
      (∃ sendTxn, makeSendGroup envW sendTxn optW.network dummyTxnNeeded = .ok sendGroup) ∧
      KeyPair.SignBytes envW kpW (envW.transactionID sendGroup.headI) = .ok signature ∧
      Event.lsigSign { logic := lsig0.lsig.logic, args := [signature] } sendGroup.headI ∈ trW ∧
      (∀ kp2 m, KeyPair.Sign envW kp2 m = KeyPair.SignBytes envW kp2 (envW.hash512_256 m)) :=
  send_signs_raw_transaction_id envW kpW [9] 100 optW [5] trW (by decide)

end FalconSig
